import Mathlib

/-!
Verification of the credential / session-token core of the `doc_gen` backend
(`backend/app/auth.py`, `backend/app/deps.py`, `backend/app/routers/auth.py`,
`backend/app/routers/google_drive.py`).

The Python code is shallowly embedded: pure functions become Lean functions,
HTTP endpoint handlers become functions returning `Except HErr _` (an
`HTTPException`-style status/detail pair), and the database session becomes an
explicit `List User`.  External cryptographic primitives (SHA-256, HMAC-SHA256,
bcrypt, the HS256 JWT signature, base64url) are not reimplemented bit for bit;
each is replaced by an explicit, executable model that keeps exactly the
structure the code relies on (determinism, fixed-size output, the
collision-free ideal-MAC reading of signature comparison, input truncation for
bcrypt, invertibility for base64url).  Every such modelling choice is stated in
the doc comment of the corresponding definition.

Python `str` operations used by the source (`strip`, `lower`, `split`,
`split("|", 2)`, `" ".join`, `int(...)`, `str(...)`, truthiness) are modelled
over `List Char` / `String`, restricted to the ASCII behaviour that core Lean's
`Char.toLower` / `Char.isWhitespace` share with CPython on ASCII input.
-/

namespace DocGen

/-! ### Modelled Python string primitives -/

/-- Python `str.lower()`, per character (ASCII range, as in core `Char.toLower`). -/
def pyLower (s : List Char) : List Char := s.map Char.toLower

/-- Python `str.strip()`: drop leading and trailing whitespace. -/
def pyStrip (s : List Char) : List Char :=
  ((s.dropWhile Char.isWhitespace).reverse.dropWhile Char.isWhitespace).reverse

/-- Python `str.split()` (no separator): split on runs of whitespace,
returning no empty tokens. -/
def pySplit : List Char → List (List Char)
  | [] => []
  | c :: rest =>
    if c.isWhitespace then pySplit rest
    else (c :: rest.takeWhile (fun d => !d.isWhitespace)) ::
      pySplit (rest.dropWhile (fun d => !d.isWhitespace))
termination_by s => s.length
decreasing_by
  · simp only [List.length_cons]; omega
  · have := (List.dropWhile_sublist (l := rest) (p := fun d => !d.isWhitespace)).length_le
    simp only [List.length_cons]; omega

/-- Python `" ".join(ws)`. -/
def joinSpace : List (List Char) → List Char
  | [] => []
  | [w] => w
  | w :: ws => w ++ ' ' :: joinSpace ws

/-- Digit character for `0 ≤ d ≤ 9` (used by the model of Python `str(int)`). -/
def digitChar (d : Nat) : Char := Char.ofNat (48 + d % 10)

/-- Inverse of `digitChar` on decimal digit characters (model of Python `int(str)`,
one character). -/
def parseDigit (c : Char) : Option Nat :=
  if 48 ≤ c.toNat ∧ c.toNat ≤ 57 then some (c.toNat - 48) else none

/-- Decimal digits of `n`, most significant first; structurally recursive on a
fuel bound so that it evaluates by kernel reduction. -/
def natReprAux : Nat → Nat → List Char
  | 0, _ => []
  | fuel + 1, n =>
    if n < 10 then [digitChar n]
    else natReprAux fuel (n / 10) ++ [digitChar (n % 10)]

/-- Decimal representation of a natural number (model of Python `str(n)` for `n ≥ 0`). -/
def natRepr (n : Nat) : List Char := natReprAux (n + 1) n

/-- Accumulating decimal parser. -/
def parseDigitsAux : List Char → Nat → Option Nat
  | [], acc => some acc
  | c :: r, acc =>
    match parseDigit c with
    | none => none
    | some d => parseDigitsAux r (acc * 10 + d)

/-- Model of Python `int(s)` for non-negative decimal strings: fails on the
empty string and on any non-digit character.  (CPython also accepts
surrounding whitespace, an explicit sign and `_` separators; those inputs are
not produced or relied on by the code under verification.) -/
def parseNat (s : List Char) : Option Nat :=
  match s with
  | [] => none
  | _ => parseDigitsAux s 0

/-- Model of Python `int(s)` for decimal strings with an optional leading minus. -/
def parseInt (s : List Char) : Option Int :=
  match s with
  | [] => none
  | c :: r =>
    if c = '-' then (parseNat r).map (fun n => -(n : Int))
    else (parseNat (c :: r)).map (fun n => (n : Int))

/-- Decimal representation of an integer (model of Python `str(n)` on `int`). -/
def intRepr (n : Int) : List Char :=
  if n < 0 then '-' :: natRepr n.natAbs else natRepr n.natAbs

/-! ### Basic lemmas about the string primitives -/

theorem char_toNat_ofNat (n : Nat) (h : n.isValidChar) : (Char.ofNat n).toNat = n := by
  have hlt : n < 2 ^ 32 := by rcases h with h | ⟨_, h⟩ <;> omega
  simp only [Char.ofNat, dif_pos h, Char.ofNatAux, Char.toNat, UInt32.toNat]
  simp [BitVec.toNat_ofNat, Nat.mod_eq_of_lt hlt]

theorem toLower_idem (c : Char) : Char.toLower (Char.toLower c) = Char.toLower c := by
  unfold Char.toLower
  by_cases h : c.toNat ≥ 65 ∧ c.toNat ≤ 90
  · have hv : Nat.isValidChar (c.toNat + 32) := by left; omega
    rw [if_pos h, char_toNat_ofNat _ hv, if_neg (by omega)]
  · rw [if_neg h, if_neg h]

theorem char_eq_iff_toNat (a b : Char) : a = b ↔ a.toNat = b.toNat := by
  constructor
  · rintro rfl; rfl
  · intro h; exact Char.ext (UInt32.ext h)

theorem isWhitespace_iff (c : Char) :
    c.isWhitespace = true ↔ (c.toNat = 32 ∨ c.toNat = 9 ∨ c.toNat = 13 ∨ c.toNat = 10) := by
  simp only [Char.isWhitespace, Bool.or_eq_true, decide_eq_true_eq,
    char_eq_iff_toNat]
  rw [show (' ').toNat = 32 from rfl, show ('\t').toNat = 9 from rfl,
    show ('\x0d').toNat = 13 from rfl, show ('\n').toNat = 10 from rfl]
  tauto

theorem isWhitespace_toLower (c : Char) : (Char.toLower c).isWhitespace = c.isWhitespace := by
  unfold Char.toLower
  by_cases h : c.toNat ≥ 65 ∧ c.toNat ≤ 90
  · rw [if_pos h]
    have hv : Nat.isValidChar (c.toNat + 32) := by left; omega
    have h1 : (Char.ofNat (c.toNat + 32)).toNat = c.toNat + 32 := char_toNat_ofNat _ hv
    have hc : c.isWhitespace = false := by
      rw [Bool.eq_false_iff, Ne, isWhitespace_iff]; omega
    have hl : (Char.ofNat (c.toNat + 32)).isWhitespace = false := by
      rw [Bool.eq_false_iff, Ne, isWhitespace_iff, h1]; omega
    rw [hc, hl]
  · rw [if_neg h]

theorem takeWhile_append_all {p : Char → Bool} :
    ∀ {a : List Char} (b : List Char), (∀ c ∈ a, p c = true) →
      (a ++ b).takeWhile p = a ++ b.takeWhile p := by
  intro a
  induction a with
  | nil => intro b _; rfl
  | cons x xs ih =>
    intro b h
    rw [List.cons_append, List.takeWhile_cons, if_pos (h x (by simp)),
      ih b (fun c hc => h c (by simp [hc]))]
    simp

theorem dropWhile_append_all {p : Char → Bool} :
    ∀ {a : List Char} (b : List Char), (∀ c ∈ a, p c = true) →
      (a ++ b).dropWhile p = b.dropWhile p := by
  intro a
  induction a with
  | nil => intro b _; rfl
  | cons x xs ih =>
    intro b h
    rw [List.cons_append, List.dropWhile_cons, if_pos (h x (by simp))]
    exact ih b (fun c hc => h c (by simp [hc]))

theorem takeWhile_all {p : Char → Bool} {a : List Char} (h : ∀ c ∈ a, p c = true) :
    a.takeWhile p = a := by
  have := takeWhile_append_all (a := a) [] h
  simpa using this

theorem dropWhile_all {p : Char → Bool} {a : List Char} (h : ∀ c ∈ a, p c = true) :
    a.dropWhile p = [] := by
  have := dropWhile_append_all (a := a) [] h
  simpa using this

theorem takeWhile_append_of_ne {p : Char → Bool} :
    ∀ {a : List Char} (b : List Char), a.dropWhile p ≠ [] →
      (a ++ b).takeWhile p = a.takeWhile p := by
  intro a
  induction a with
  | nil => intro b h; simp at h
  | cons x xs ih =>
    intro b h
    simp only [List.dropWhile_cons] at h
    by_cases hx : p x = true
    · rw [List.cons_append, List.takeWhile_cons, if_pos hx, List.takeWhile_cons, if_pos hx,
        ih b (by simpa [hx] using h)]
    · rw [List.cons_append, List.takeWhile_cons, if_neg hx, List.takeWhile_cons, if_neg hx]

theorem dropWhile_append_of_ne {p : Char → Bool} :
    ∀ {a : List Char} (b : List Char), a.dropWhile p ≠ [] →
      (a ++ b).dropWhile p = a.dropWhile p ++ b := by
  intro a
  induction a with
  | nil => intro b h; simp at h
  | cons x xs ih =>
    intro b h
    simp only [List.dropWhile_cons] at h
    by_cases hx : p x = true
    · rw [List.cons_append, List.dropWhile_cons, if_pos hx, List.dropWhile_cons, if_pos hx,
        ih b (by simpa [hx] using h)]
    · rw [List.cons_append, List.dropWhile_cons, if_neg hx, List.dropWhile_cons, if_neg hx]
      simp

/-- Every token of `pySplit` is nonempty and contains no whitespace. -/
theorem pySplit_sound :
    ∀ s : List Char, ∀ w ∈ pySplit s, w ≠ [] ∧ ∀ c ∈ w, c.isWhitespace = false := by
  intro s
  induction s using pySplit.induct with
  | case1 => intro w hw; simp [pySplit] at hw
  | case2 c rest hc ih =>
    intro w hw
    rw [pySplit, if_pos hc] at hw
    exact ih w hw
  | case3 c rest hc ih =>
    intro w hw
    rw [pySplit, if_neg hc] at hw
    rcases List.mem_cons.mp hw with rfl | hw
    · refine ⟨by simp, ?_⟩
      intro d hd
      rcases List.mem_cons.mp hd with rfl | hd
      · exact Bool.eq_false_iff.mpr hc
      · have := List.mem_takeWhile_imp hd
        simpa using this
    · exact ih w hw

/-- Every character of a `pySplit` token occurs in the input. -/
theorem pySplit_mem :
    ∀ s : List Char, ∀ w ∈ pySplit s, ∀ c ∈ w, c ∈ s := by
  intro s
  induction s using pySplit.induct with
  | case1 => intro w hw; simp [pySplit] at hw
  | case2 c rest hc ih =>
    intro w hw d hd
    rw [pySplit, if_pos hc] at hw
    exact List.mem_cons_of_mem _ (ih w hw d hd)
  | case3 c rest hc ih =>
    intro w hw d hd
    rw [pySplit, if_neg hc] at hw
    rcases List.mem_cons.mp hw with rfl | hw
    · rcases List.mem_cons.mp hd with rfl | hd
      · simp
      · exact List.mem_cons_of_mem _ ((rest.takeWhile_sublist _).mem hd)
    · exact List.mem_cons_of_mem _ ((rest.dropWhile_sublist _).mem (ih w hw d hd))

/-- Splitting ignores a leading run of whitespace. -/
theorem pySplit_ws_leading :
    ∀ (pre s : List Char), (∀ c ∈ pre, c.isWhitespace = true) →
      pySplit (pre ++ s) = pySplit s := by
  intro pre
  induction pre with
  | nil => intro s _; rfl
  | cons x xs ih =>
    intro s h
    have hx : x.isWhitespace = true := h x (by simp)
    rw [List.cons_append, pySplit, if_pos hx]
    exact ih s (fun c hc => h c (by simp [hc]))

theorem pySplit_nil : pySplit [] = [] := by rw [pySplit]

theorem pySplit_all_ws {s : List Char} (h : ∀ c ∈ s, c.isWhitespace = true) :
    pySplit s = [] := by
  have := pySplit_ws_leading s [] h
  simpa [pySplit_nil] using this

/-- Splitting ignores a trailing run of whitespace. -/
theorem pySplit_ws_suffix :
    ∀ (s trail : List Char), (∀ c ∈ trail, c.isWhitespace = true) →
      pySplit (s ++ trail) = pySplit s := by
  intro s
  induction s using pySplit.induct with
  | case1 =>
    intro trail h
    simpa [pySplit] using pySplit_all_ws h
  | case2 c rest hc ih =>
    intro trail h
    rw [List.cons_append, pySplit, if_pos hc, pySplit, if_pos hc]
    exact ih trail h
  | case3 c rest hc ih =>
    intro trail h
    have htrail : ∀ d ∈ trail, (!d.isWhitespace) = false := by
      intro d hd; simp [h d hd]
    rw [List.cons_append, pySplit, if_neg hc, pySplit, if_neg hc]
    by_cases hrest : rest.dropWhile (fun d => !d.isWhitespace) = []
    · have hall : ∀ d ∈ rest, (!d.isWhitespace) = true := by
        intro d hd
        exact List.dropWhile_eq_nil_iff.mp hrest d hd
      have h1 : (rest ++ trail).takeWhile (fun d => !d.isWhitespace) = rest := by
        rw [takeWhile_append_all _ hall]
        have : trail.takeWhile (fun d => !d.isWhitespace) = [] := by
          cases trail with
          | nil => rfl
          | cons t ts => simp [List.takeWhile_cons, htrail t (by simp)]
        simp [this]
      have h2 : (rest ++ trail).dropWhile (fun d => !d.isWhitespace) = trail := by
        rw [dropWhile_append_all _ hall]
        cases trail with
        | nil => rfl
        | cons t ts => simp [List.dropWhile_cons, htrail t (by simp)]
      rw [h1, h2, hrest, pySplit_all_ws h]
      simp [takeWhile_all hall, pySplit]
    · rw [takeWhile_append_of_ne _ hrest, dropWhile_append_of_ne _ hrest]
      rw [ih trail h]

theorem joinSpace_cons_cons (w w2 : List Char) (t : List (List Char)) :
    joinSpace (w :: w2 :: t) = w ++ ' ' :: joinSpace (w2 :: t) := rfl

/-- Splitting the single-space join of nonempty whitespace-free tokens
recovers the tokens. -/
theorem pySplit_joinSpace :
    ∀ ws : List (List Char),
      (∀ w ∈ ws, w ≠ [] ∧ ∀ c ∈ w, c.isWhitespace = false) →
      pySplit (joinSpace ws) = ws := by
  intro ws
  induction ws with
  | nil => intro _; simpa [joinSpace] using pySplit_nil
  | cons w ws ih =>
    intro h
    obtain ⟨hne, hnws⟩ := h w (by simp)
    obtain ⟨c, w', rfl⟩ : ∃ c w', w = c :: w' := by
      cases w with
      | nil => exact absurd rfl hne
      | cons c w' => exact ⟨c, w', rfl⟩
    have hc : c.isWhitespace = false := hnws c (by simp)
    have hw' : ∀ d ∈ w', (fun d => !d.isWhitespace) d = true := by
      intro d hd; simp [hnws d (by simp [hd])]
    cases ws with
    | nil =>
      rw [joinSpace, pySplit, if_neg (by simp [hc]), takeWhile_all hw', dropWhile_all hw',
        pySplit_nil]
    | cons w2 t =>
      rw [joinSpace_cons_cons, List.cons_append, pySplit, if_neg (by simp [hc])]
      have h1 : (w' ++ ' ' :: joinSpace (w2 :: t)).takeWhile (fun d => !d.isWhitespace) = w' := by
        rw [takeWhile_append_all _ hw', List.takeWhile_cons]
        simp
      have h2 : (w' ++ ' ' :: joinSpace (w2 :: t)).dropWhile (fun d => !d.isWhitespace) =
          ' ' :: joinSpace (w2 :: t) := by
        rw [dropWhile_append_all _ hw', List.dropWhile_cons]
        simp
      rw [h1, h2, pySplit, if_pos (by simp), ih (fun v hv => h v (by simp [hv]))]

/-- Every character of a single-space join is a character of a token or a space. -/
theorem mem_joinSpace :
    ∀ (ws : List (List Char)) (c : Char), c ∈ joinSpace ws → (∃ w ∈ ws, c ∈ w) ∨ c = ' ' := by
  intro ws
  induction ws with
  | nil => intro c hc; simp [joinSpace] at hc
  | cons w ws ih =>
    intro c hc
    cases ws with
    | nil =>
      rw [joinSpace] at hc
      exact Or.inl ⟨w, by simp, hc⟩
    | cons w2 t =>
      rw [joinSpace_cons_cons] at hc
      rcases List.mem_append.mp hc with hc | hc
      · exact Or.inl ⟨w, by simp, hc⟩
      · rcases List.mem_cons.mp hc with rfl | hc
        · exact Or.inr rfl
        · rcases ih c hc with ⟨v, hv, hcv⟩ | hsp
          · exact Or.inl ⟨v, by simp [hv], hcv⟩
          · exact Or.inr hsp

/-! ### Lemmas about the decimal representation -/

theorem natReprAux_digit :
    ∀ (fuel n : Nat), n < fuel → ∀ c ∈ natReprAux fuel n, ∃ d, d < 10 ∧ c = digitChar d := by
  intro fuel
  induction fuel with
  | zero => intro n h; omega
  | succ fuel ih =>
    intro n h c hc
    rw [natReprAux] at hc
    by_cases h10 : n < 10
    · rw [if_pos h10] at hc
      simp at hc
      exact ⟨n, h10, hc⟩
    · rw [if_neg h10] at hc
      rcases List.mem_append.mp hc with hc | hc
      · exact ih (n / 10) (by omega) c hc
      · simp at hc
        exact ⟨n % 10, by omega, hc⟩

theorem natRepr_digit (n : Nat) : ∀ c ∈ natRepr n, ∃ d, d < 10 ∧ c = digitChar d :=
  natReprAux_digit (n + 1) n (by omega)

theorem natReprAux_ne_nil (fuel n : Nat) (h : n < fuel) : natReprAux fuel n ≠ [] := by
  cases fuel with
  | zero => omega
  | succ fuel =>
    rw [natReprAux]
    split
    · simp
    · simp

theorem natRepr_ne_nil (n : Nat) : natRepr n ≠ [] :=
  natReprAux_ne_nil (n + 1) n (by omega)

theorem parseDigit_digitChar (d : Nat) (h : d < 10) : parseDigit (digitChar d) = some d := by
  interval_cases d <;> rfl

theorem parseDigitsAux_append :
    ∀ (a b : List Char) (acc : Nat),
      parseDigitsAux (a ++ b) acc =
        match parseDigitsAux a acc with
        | none => none
        | some m => parseDigitsAux b m := by
  intro a
  induction a with
  | nil => intro b acc; rfl
  | cons c r ih =>
    intro b acc
    rw [List.cons_append, parseDigitsAux, parseDigitsAux]
    cases parseDigit c with
    | none => rfl
    | some d => exact ih b (acc * 10 + d)

theorem parseDigitsAux_natReprAux :
    ∀ (fuel n acc : Nat), n < fuel →
      parseDigitsAux (natReprAux fuel n) acc =
        some (acc * 10 ^ (natReprAux fuel n).length + n) := by
  intro fuel
  induction fuel with
  | zero => intro n acc h; omega
  | succ fuel ih =>
    intro n acc h
    rw [natReprAux]
    by_cases h10 : n < 10
    · rw [if_pos h10]
      simp [parseDigitsAux, parseDigit_digitChar n h10]
    · rw [if_neg h10, parseDigitsAux_append]
      rw [ih (n / 10) acc (by omega)]
      simp only [parseDigitsAux, parseDigit_digitChar (n % 10) (by omega)]
      have hlen : (natReprAux fuel (n / 10) ++ [digitChar (n % 10)]).length =
          (natReprAux fuel (n / 10)).length + 1 := by simp
      rw [hlen, pow_succ]
      congr 1
      have := Nat.div_add_mod n 10
      ring_nf
      omega

theorem parseNat_natRepr (n : Nat) : parseNat (natRepr n) = some n := by
  have hne := natRepr_ne_nil n
  have heq : parseNat (natRepr n) = parseDigitsAux (natRepr n) 0 := by
    cases h : natRepr n with
    | nil => exact absurd h hne
    | cons c t => rfl
  rw [heq, show natRepr n = natReprAux (n + 1) n from rfl,
    parseDigitsAux_natReprAux (n + 1) n 0 (by omega)]
  simp

theorem natRepr_no_pipe (n : Nat) : ∀ c ∈ natRepr n, c ≠ '|' := by
  intro c hc
  obtain ⟨d, hd, rfl⟩ := natRepr_digit n c hc
  interval_cases d <;> decide

theorem natRepr_no_minus (n : Nat) : ∀ c ∈ natRepr n, c ≠ '-' := by
  intro c hc
  obtain ⟨d, hd, rfl⟩ := natRepr_digit n c hc
  interval_cases d <;> decide

theorem parseInt_natRepr (n : Nat) : parseInt (natRepr n) = some (n : Int) := by
  cases h : natRepr n with
  | nil => exact absurd h (natRepr_ne_nil n)
  | cons c t =>
    have hcm : c ≠ '-' := natRepr_no_minus n c (by rw [h]; simp)
    rw [parseInt, if_neg hcm, ← h, parseNat_natRepr]
    rfl

/-! ### Strip / lower commutation -/

theorem char_ofNat_toNat (c : Char) : Char.ofNat c.toNat = c := by
  have hv : Nat.isValidChar c.toNat := c.valid
  exact Char.ext (UInt32.ext (char_toNat_ofNat c.toNat hv))

theorem dropWhile_ws_pyLower (l : List Char) :
    (pyLower l).dropWhile Char.isWhitespace = pyLower (l.dropWhile Char.isWhitespace) := by
  induction l with
  | nil => rfl
  | cons c r ih =>
    simp only [pyLower, List.map_cons, List.dropWhile_cons, isWhitespace_toLower]
    by_cases hc : c.isWhitespace = true
    · rw [if_pos hc, if_pos hc]
      exact ih
    · rw [if_neg hc, if_neg hc]
      rfl

theorem pyStrip_pyLower (l : List Char) : pyStrip (pyLower l) = pyLower (pyStrip l) := by
  unfold pyStrip
  rw [dropWhile_ws_pyLower]
  rw [show (pyLower (l.dropWhile Char.isWhitespace)).reverse
      = pyLower (l.dropWhile Char.isWhitespace).reverse from (List.map_reverse _ _).symm]
  rw [dropWhile_ws_pyLower]
  exact (List.map_reverse _ _).symm

theorem pySplit_pyStrip (s : List Char) : pySplit (pyStrip s) = pySplit s := by
  have step1 : pySplit (s.dropWhile Char.isWhitespace) = pySplit s := by
    conv_rhs => rw [← List.takeWhile_append_dropWhile (p := Char.isWhitespace) (l := s)]
    rw [pySplit_ws_leading _ _ (fun c hc => List.mem_takeWhile_imp hc)]
  set t := s.dropWhile Char.isWhitespace with ht
  have hsplit : t = pyStrip s ++ (t.reverse.takeWhile Char.isWhitespace).reverse := by
    unfold pyStrip
    rw [← ht, ← List.reverse_append, ← List.takeWhile_append_dropWhile
      (p := Char.isWhitespace) (l := t.reverse)]
    simp
  have htrail : ∀ c ∈ (t.reverse.takeWhile Char.isWhitespace).reverse, c.isWhitespace = true := by
    intro c hc
    exact List.mem_takeWhile_imp (List.mem_reverse.mp hc)
  calc pySplit (pyStrip s) = pySplit (pyStrip s ++ (t.reverse.takeWhile Char.isWhitespace).reverse) :=
        (pySplit_ws_suffix _ _ htrail).symm
    _ = pySplit t := by rw [← hsplit]
    _ = pySplit s := step1

/-- Stripping first does not change the tokens of the lowercased string. -/
theorem pySplit_pyLower_pyStrip (s : List Char) :
    pySplit (pyLower (pyStrip s)) = pySplit (pyLower s) := by
  rw [← pyStrip_pyLower, pySplit_pyStrip]

/-! ### Modelled base64url codec

The source transports the OAuth state as
`base64.urlsafe_b64encode(raw.encode("utf-8")).rstrip("=")`, and decodes with
re-padding, `urlsafe_b64decode` and `.decode("utf-8")` inside a `try`.  The
model below replaces that external codec by a concrete injective encoding with
a total decoder: each character is transported as six hexadecimal digits of
its code point.  The only properties of the real codec the verified code
relies on are kept exactly: `decode (encode s) = some s`, and the decoder
rejects (returns `none` for) strings outside the encoder's range instead of
raising. -/

def hexDigitChar (d : Nat) : Char :=
  if d % 16 < 10 then Char.ofNat (48 + d % 16) else Char.ofNat (87 + d % 16)

def parseHexDigit (c : Char) : Option Nat :=
  if 48 ≤ c.toNat ∧ c.toNat ≤ 57 then some (c.toNat - 48)
  else if 97 ≤ c.toNat ∧ c.toNat ≤ 102 then some (c.toNat - 87)
  else none

/-- Six-hex-digit encoding of one code point. -/
def encChar6 (n : Nat) : List Char :=
  [hexDigitChar (n / 16 ^ 5 % 16), hexDigitChar (n / 16 ^ 4 % 16), hexDigitChar (n / 16 ^ 3 % 16),
    hexDigitChar (n / 16 ^ 2 % 16), hexDigitChar (n / 16 % 16), hexDigitChar (n % 16)]

/-- Model of `base64.urlsafe_b64encode(s.encode("utf-8")).decode().rstrip("=")`. -/
def b64uEncodeList (s : List Char) : List Char := (s.map (fun c => encChar6 c.toNat)).flatten

/-- Model of padded `base64.urlsafe_b64decode` followed by UTF-8 decoding;
`none` models the exceptions raised on inputs outside the encoding's range. -/
def b64uDecodeList : List Char → Option (List Char)
  | [] => some []
  | c1 :: c2 :: c3 :: c4 :: c5 :: c6 :: rest =>
    match parseHexDigit c1, parseHexDigit c2, parseHexDigit c3,
        parseHexDigit c4, parseHexDigit c5, parseHexDigit c6 with
    | some d1, some d2, some d3, some d4, some d5, some d6 =>
      let n := ((((d1 * 16 + d2) * 16 + d3) * 16 + d4) * 16 + d5) * 16 + d6
      if n.isValidChar then
        match b64uDecodeList rest with
        | none => none
        | some cs => some (Char.ofNat n :: cs)
      else none
    | _, _, _, _, _, _ => none
  | _ => none

theorem parseHexDigit_hexDigitChar (d : Nat) (h : d < 16) :
    parseHexDigit (hexDigitChar d) = some d := by
  interval_cases d <;> rfl

theorem hex6_reconstruct (n : Nat) (h : n < 16 ^ 6) :
    ((((n / 16 ^ 5 % 16 * 16 + n / 16 ^ 4 % 16) * 16 + n / 16 ^ 3 % 16) * 16
      + n / 16 ^ 2 % 16) * 16 + n / 16 % 16) * 16 + n % 16 = n := by
  have e5 : (16 : Nat) ^ 5 = 1048576 := by norm_num
  have e4 : (16 : Nat) ^ 4 = 65536 := by norm_num
  have e3 : (16 : Nat) ^ 3 = 4096 := by norm_num
  have e2 : (16 : Nat) ^ 2 = 256 := by norm_num
  have e6 : (16 : Nat) ^ 6 = 16777216 := by norm_num
  rw [e5, e4, e3, e2] at *
  rw [e6] at h
  omega

theorem char_toNat_lt (c : Char) : c.toNat < 16 ^ 6 := by
  have hv : Nat.isValidChar c.toNat := c.valid
  have : (16 : Nat) ^ 6 = 16777216 := by norm_num
  rcases hv with h | ⟨_, h⟩ <;> omega

/-- The transport codec round-trips. -/
theorem b64u_roundtrip : ∀ s : List Char, b64uDecodeList (b64uEncodeList s) = some s := by
  intro s
  induction s with
  | nil => rfl
  | cons c r ih =>
    have henc : b64uEncodeList (c :: r) = encChar6 c.toNat ++ b64uEncodeList r := by
      simp [b64uEncodeList]
    rw [henc]
    have hd : ∀ k : Nat, c.toNat / 16 ^ k % 16 < 16 := fun k => Nat.mod_lt _ (by norm_num)
    have hd0 : c.toNat % 16 < 16 := Nat.mod_lt _ (by norm_num)
    have hd1 : c.toNat / 16 % 16 < 16 := Nat.mod_lt _ (by norm_num)
    simp only [encChar6, List.cons_append, List.nil_append, b64uDecodeList,
      parseHexDigit_hexDigitChar _ (hd 5), parseHexDigit_hexDigitChar _ (hd 4),
      parseHexDigit_hexDigitChar _ (hd 3), parseHexDigit_hexDigitChar _ (hd 2),
      parseHexDigit_hexDigitChar _ hd1, parseHexDigit_hexDigitChar _ hd0]
    have hrec := hex6_reconstruct c.toNat (char_toNat_lt c)
    rw [hrec, if_pos (show c.toNat.isValidChar from c.valid)]
    rw [show ([] : List Char).append (b64uEncodeList r) = b64uEncodeList r from rfl]
    rw [ih, char_ofNat_toNat]

/-! ### Python `split("|", 2)` -/

/-- Split at the first `|`, if any. -/
def splitOnce : List Char → Option (List Char × List Char)
  | [] => none
  | c :: r =>
    if c = '|' then some ([], r)
    else (splitOnce r).map (fun p => (c :: p.1, p.2))

/-- Model of Python `raw.split("|", 2)`: at most two splits, remainder kept whole. -/
def splitPipe2 (s : List Char) : List (List Char) :=
  match splitOnce s with
  | none => [s]
  | some (a, r) =>
    match splitOnce r with
    | none => [a, r]
    | some (b, r2) => [a, b, r2]

theorem splitOnce_none {s : List Char} (h : ∀ c ∈ s, c ≠ '|') : splitOnce s = none := by
  induction s with
  | nil => rfl
  | cons c r ih =>
    rw [splitOnce, if_neg (h c (by simp)), ih (fun d hd => h d (by simp [hd]))]
    rfl

theorem splitOnce_append {a : List Char} (r : List Char) (h : ∀ c ∈ a, c ≠ '|') :
    splitOnce (a ++ '|' :: r) = some (a, r) := by
  induction a with
  | nil => simp [splitOnce]
  | cons c t ih =>
    rw [List.cons_append, splitOnce, if_neg (h c (by simp)),
      ih (fun d hd => h d (by simp [hd]))]
    rfl

theorem splitPipe2_three {a b : List Char} (c : List Char)
    (ha : ∀ x ∈ a, x ≠ '|') (hb : ∀ x ∈ b, x ≠ '|') :
    splitPipe2 (a ++ '|' :: (b ++ '|' :: c)) = [a, b, c] := by
  rw [splitPipe2, splitOnce_append _ ha]
  dsimp only
  rw [splitOnce_append _ hb]

/-! ### The data model of `backend/app/auth.py` and its collaborators

Cryptographic primitives are replaced by symbolic, executable models:

* `HmacSha256Hex` models the hex digest `hmac.new(key, msg, sha256).hexdigest()`
  as the pair `(key, msg)` itself — the ideal-MAC reading in which distinct
  `(key, msg)` pairs give distinct tags and equal pairs give equal tags.
* `BcryptHash` models a passlib bcrypt hash string: it records the salt chosen
  at hash time and the input *truncated to 72 bytes* (bcrypt's documented
  input-length ceiling); `bcryptVerify` re-derives the hash with the stored
  salt and compares, which is exactly how bcrypt verification behaves under
  the ideal collision-free reading.
* `sha256hex` models `hashlib.sha256(x).hexdigest()`: a deterministic function
  producing exactly 64 hex characters.  Only determinism and the fixed
  64-character output size are relied on, so a concrete executable stand-in
  digest is used.
* `JwtSig` models the HS256 signature over the serialized payload as the pair
  (secret, claims); `JwtWire.malformed` stands for every bearer string the
  `jwt` library fails to parse or verify structurally.
-/

/-- Symbolic `hmac.new(key.encode(), msg.encode(), hashlib.sha256).hexdigest()`. -/
structure HmacSha256Hex where
  key : String
  msg : String
deriving DecidableEq, Repr

/-- Modelled `hashlib.sha256(s.encode("utf-8")).hexdigest()`: deterministic,
always 64 hex characters. -/
def sha256hex (s : String) : String :=
  String.mk ((List.range 64).map (fun i =>
    hexDigitChar ((s.data.foldl (fun a c => (a * 131 + c.toNat) % 1000003) (i + 7)) % 16)))

/-- Modelled bcrypt hash string: salt chosen at hash time plus the bound input. -/
structure BcryptHash where
  salt : String
  key : String
deriving DecidableEq, Repr

/-- bcrypt silently truncates its input beyond 72 bytes. -/
def bcryptTruncate (s : String) : String := String.mk (s.data.take 72)

/-- Modelled `passlib` bcrypt hashing with an explicit salt (passlib draws the
salt at random; it is passed explicitly here). -/
def bcryptHashWithSalt (salt input : String) : BcryptHash :=
  ⟨salt, bcryptTruncate input⟩

/-- Modelled `passlib` bcrypt verification: re-derive with the stored salt and
compare (ideal collision-free reading). -/
def bcryptVerify (input : String) (h : BcryptHash) : Bool :=
  bcryptHashWithSalt h.salt input == h

/-- Model of `backend/app/settings.py`, restricted to the fields the auth subsystem
reads.  `none` models an unset environment variable; `auth_jwt_ttl_seconds`
defaults to `60 * 60 * 24 * 14`. -/
structure Settings where
  auth_jwt_secret : Option String
  auth_jwt_ttl_seconds : Int
  auth_seed_secret : Option String
  auth_state_secret : Option String
deriving DecidableEq, Repr

/-- Python truthiness of an optional string (`None` and `""` are falsy). -/
def pyTruthyOptStr : Option String → Bool
  | none => false
  | some s => s != ""

/-- Python `s or ""` on a string. -/
def pyOrEmptyStr (s : String) : String := if s = "" then "" else s

/-- Model of `auth.TokenData`. -/
structure TokenData where
  user_id : String
  email : String
deriving DecidableEq, Repr

/-- Model of `auth._require_auth_secrets`: `none` models the raised `ValueError`. -/
def _require_auth_secrets (st : Settings) : Option (String × String) :=
  if !pyTruthyOptStr st.auth_jwt_secret then none
  else if !pyTruthyOptStr st.auth_seed_secret then none
  else some (st.auth_jwt_secret.getD "", st.auth_seed_secret.getD "")

/-- Model of `auth._bcrypt_input`: SHA-256 pre-hash applied before bcrypt. -/
def _bcrypt_input (value : String) : String := sha256hex value

/-- Model of `auth.normalize_seed`:
`" ".join([w for w in seed_phrase.strip().lower().split() if w])`. -/
def normalize_seed (seed_phrase : String) : String :=
  String.mk (joinSpace ((pySplit (pyLower (pyStrip seed_phrase.data))).filter
    (fun w => !w.isEmpty)))

/-- Model of `auth.seed_key`: HMAC-SHA256 of the normalized phrase keyed with the seed
secret, hex-encoded (the hex digest is the symbolic `HmacSha256Hex` value).
`none` models the `ValueError` from `_require_auth_secrets`. -/
def seed_key (st : Settings) (seed_phrase : String) : Option HmacSha256Hex :=
  match _require_auth_secrets st with
  | none => none
  | some (_, seed_secret) => some ⟨seed_secret, normalize_seed seed_phrase⟩

/-- Model of `auth.hash_password` (passlib's random salt passed explicitly). -/
def hash_password (salt : String) (password : String) : BcryptHash :=
  bcryptHashWithSalt salt (_bcrypt_input password)

/-- Model of `auth.verify_password`. -/
def verify_password (password : String) (h : BcryptHash) : Bool :=
  bcryptVerify (_bcrypt_input password) h

/-- Model of `auth.hash_seed` (salt explicit). -/
def hash_seed (salt : String) (seed_phrase : String) : BcryptHash :=
  bcryptHashWithSalt salt (normalize_seed seed_phrase)

/-- Model of `auth.verify_seed`. -/
def verify_seed (seed_phrase : String) (h : BcryptHash) : Bool :=
  bcryptVerify (normalize_seed seed_phrase) h

/-! ### The session-token codec (`auth.issue_jwt` / `auth.decode_jwt`) -/

/-- A JSON claim value as it can appear in a decoded JWT payload (the shapes
relevant to this code: strings, integers, null). -/
inductive JsonVal where
  | str (v : String)
  | int (v : Int)
  | null
deriving DecidableEq, Repr

/-- Symbolic HS256 signature over the serialized claims. -/
structure JwtSig where
  secret : String
  claims : List (String × JsonVal)
deriving DecidableEq, Repr

/-- A bearer-token string on the wire: either something the `jwt` library
parses as a signed token, or anything it rejects as garbage. -/
inductive JwtWire where
  | malformed (raw : String)
  | token (claims : List (String × JsonVal)) (sig : JwtSig)
deriving DecidableEq, Repr

/-- Python `payload.get(k)` on the claims dict. -/
def jwtGet (claims : List (String × JsonVal)) (k : String) : Option JsonVal :=
  (claims.find? (fun p => p.1 == k)).map (fun p => p.2)

/-- Python `int(v)` on a claim value (as used by PyJWT's registered-claim
validation); `none` models the raised error. -/
def pyIntOfJson : JsonVal → Option Int
  | .int n => some n
  | .str v => parseInt v.data
  | .null => none

/-- Python truthiness of a claim value. -/
def pyTruthyJson : JsonVal → Bool
  | .str v => v != ""
  | .int n => n != 0
  | .null => false

/-- Python `str(v)` of a claim value. -/
def pyStrJson : JsonVal → String
  | .str v => v
  | .int n => String.mk (intRepr n)
  | .null => "None"

/-- Model of `str(payload.get(k) or "")`. -/
def jwtGetStrOrEmpty (claims : List (String × JsonVal)) (k : String) : String :=
  match jwtGet claims k with
  | none => ""
  | some v => if pyTruthyJson v then pyStrJson v else ""

/-- PyJWT's registered-claim validation as performed by
`jwt.decode(..., algorithms=["HS256"])` with default options: `iat`/`nbf`/`exp`
must be integer-convertible when present, `nbf` must not be in the future, and
`exp` must be strictly in the future (`exp <= now` is expired). -/
def jwtClaimsValid (claims : List (String × JsonVal)) (now : Int) : Bool :=
  (match jwtGet claims "iat" with
    | none => true
    | some v => (pyIntOfJson v).isSome) &&
  (match jwtGet claims "nbf" with
    | none => true
    | some v =>
      match pyIntOfJson v with
      | none => false
      | some b => decide (b ≤ now)) &&
  (match jwtGet claims "exp" with
    | none => true
    | some v =>
      match pyIntOfJson v with
      | none => false
      | some e => decide (now < e))

/-- The payload dict built by `issue_jwt`. -/
def issuedPayload (user_id email : String) (iat exp : Int) : List (String × JsonVal) :=
  [("sub", .str user_id), ("email", .str email), ("iat", .int iat), ("exp", .int exp)]

/-- Model of `auth.issue_jwt`: claims `{sub, email, iat, exp}` with
`exp = now + int(ttl or 0)`, signed HS256 with the configured secret.
`none` models the `ValueError` raised when a secret is missing. -/
def issue_jwt (st : Settings) (now : Int) (user_id email : String) : Option JwtWire :=
  match _require_auth_secrets st with
  | none => none
  | some (jwt_secret, _) =>
    let exp := now + (if st.auth_jwt_ttl_seconds = 0 then 0 else st.auth_jwt_ttl_seconds)
    let payload := issuedPayload user_id email now exp
    some (.token payload ⟨jwt_secret, payload⟩)

/-- Model of `auth.decode_jwt`: verify the signature and registered claims via
`jwt.decode`, then extract `str(payload.get("sub") or "")` and
`str(payload.get("email") or "")`; every raised exception (bad signature,
malformed token, expired, missing secret, bad claim types) is caught by the
`try`/`except` and becomes `none`. -/
def decode_jwt (st : Settings) (now : Int) (w : JwtWire) : Option TokenData :=
  match _require_auth_secrets st with
  | none => none
  | some (jwt_secret, _) =>
    match w with
    | .malformed _ => none
    | .token claims sig =>
      if sig = ⟨jwt_secret, claims⟩ then
        if jwtClaimsValid claims now then
          let uid := jwtGetStrOrEmpty claims "sub"
          let email := jwtGetStrOrEmpty claims "email"
          if uid = "" ∨ email = "" then none
          else some ⟨uid, email⟩
        else none
      else none

/-! ### `backend/app/models.py` (User) and `backend/app/deps.py` -/

/-- The persisted `User` row (fields used by the auth subsystem). -/
structure User where
  id : String
  created_at : Int
  updated_at : Int
  email : String
  password_hash : BcryptHash
  seed_key : HmacSha256Hex
  seed_hash : BcryptHash
deriving DecidableEq, Repr

/-- An `HTTPException`: status code and detail message. -/
structure HErr where
  status : Nat
  detail : String
deriving DecidableEq, Repr

/-- Model of `session.get(User, uid)`: primary-key lookup. -/
def dbGetUserById (db : List User) (uid : String) : Option User :=
  db.find? (fun u => u.id == uid)

/-- Model of `session.exec(select(User).where(User.email == e)).first()`. -/
def dbFirstByEmail (db : List User) (e : String) : Option User :=
  db.find? (fun u => u.email == e)

/-- Model of `session.exec(select(User).where(User.seed_key == k)).first()`. -/
def dbFirstBySeedKey (db : List User) (k : HmacSha256Hex) : Option User :=
  db.find? (fun u => u.seed_key == k)

/-- Truthiness of `creds.credentials` for an incoming bearer value: only the
empty string is falsy. -/
def jwtWireFalsy : JwtWire → Bool
  | .malformed raw => raw == ""
  | .token _ _ => false

/-- Model of `deps.require_local_auth_config`. -/
def require_local_auth_config (st : Settings) : Except HErr Unit :=
  if !pyTruthyOptStr st.auth_jwt_secret || !pyTruthyOptStr st.auth_seed_secret then
    .error ⟨400,
      "Local auth is not configured. Set AUTH_JWT_SECRET and AUTH_SEED_SECRET in backend/.env and restart."⟩
  else .ok ()

/-- Model of `deps.get_current_user`: the required auth gate.  `creds = none` models an
absent `Authorization` header (`HTTPBearer(auto_error=False)`). -/
def get_current_user (st : Settings) (db : List User) (now : Int) (creds : Option JwtWire) :
    Except HErr User :=
  match require_local_auth_config st with
  | .error e => .error e
  | .ok _ =>
    match creds with
    | none => .error ⟨401, "Missing bearer token"⟩
    | some w =>
      if jwtWireFalsy w then .error ⟨401, "Missing bearer token"⟩
      else
        match decode_jwt st now w with
        | none => .error ⟨401, "Invalid token"⟩
        | some td =>
          match dbGetUserById db td.user_id with
          | none => .error ⟨401, "User not found"⟩
          | some u => .ok u

/-- Model of `deps.get_optional_user`: the optional auth gate. -/
def get_optional_user (st : Settings) (db : List User) (now : Int) (creds : Option JwtWire) :
    Option User :=
  match creds with
  | none => none
  | some w =>
    if jwtWireFalsy w then none
    else
      match decode_jwt st now w with
      | none => none
      | some td => dbGetUserById db td.user_id

/-! ### `backend/app/routers/auth.py` -/

structure RegisterRequest where
  email : String
  password : String
deriving DecidableEq, Repr

structure RegisterResponse where
  access_token : JwtWire
  seed_phrase : String
deriving DecidableEq, Repr

structure LoginEmailRequest where
  email : String
  password : String
deriving DecidableEq, Repr

structure LoginSeedRequest where
  seed_phrase : String
deriving DecidableEq, Repr

structure TokenResponse where
  access_token : JwtWire
deriving DecidableEq, Repr

/-- Model of `(e or "").strip().lower()` as applied to submitted emails. -/
def pyEmailNorm (e : String) : String := String.mk (pyLower (pyStrip (pyOrEmptyStr e).data))

/-- Model of `register`: the `POST /auth/register` handler.  Randomness made explicit:
`uid` is the generated UUID primary key, `phrase` the value of
`generate_seed_phrase(12)`, `pwSalt`/`seedSalt` the bcrypt salts passlib draws
inside `hash_password`/`hash_seed`.  The 500 arms model exceptions that
escape the handler (unreachable after the config check). -/
def register (st : Settings) (db : List User) (now : Int)
    (uid phrase pwSalt seedSalt : String) (req : RegisterRequest) :
    Except HErr (RegisterResponse × List User) :=
  match require_local_auth_config st with
  | .error e => .error e
  | .ok _ =>
    let email := pyEmailNorm req.email
    if email = "" ∨ ¬email.data.contains '@' then .error ⟨400, "Invalid email"⟩
    else if req.password = "" ∨ req.password.length < 6 then
      .error ⟨400, "Password must be at least 6 characters"⟩
    else
      match seed_key st phrase with
      | none => .error ⟨500, "Internal Server Error"⟩
      | some skey =>
        match dbFirstByEmail db email with
        | some _ => .error ⟨409, "Email already registered"⟩
        | none =>
          let u : User :=
            ⟨uid, now, now, email, hash_password pwSalt req.password, skey,
              hash_seed seedSalt phrase⟩
          match issue_jwt st now u.id u.email with
          | none => .error ⟨500, "Internal Server Error"⟩
          | some tok => .ok (⟨tok, phrase⟩, db ++ [u])

/-- Model of `login_email`: the `POST /auth/login/email` handler. -/
def login_email (st : Settings) (db : List User) (now : Int) (req : LoginEmailRequest) :
    Except HErr TokenResponse :=
  match require_local_auth_config st with
  | .error e => .error e
  | .ok _ =>
    let email := pyEmailNorm req.email
    match dbFirstByEmail db email with
    | none => .error ⟨401, "Invalid credentials"⟩
    | some u =>
      if !verify_password (pyOrEmptyStr req.password) u.password_hash then
        .error ⟨401, "Invalid credentials"⟩
      else
        match issue_jwt st now u.id u.email with
        | none => .error ⟨500, "Internal Server Error"⟩
        | some tok => .ok ⟨tok⟩

/-- Model of `login_seed`: the `POST /auth/login/seed` handler. -/
def login_seed (st : Settings) (db : List User) (now : Int) (req : LoginSeedRequest) :
    Except HErr TokenResponse :=
  match require_local_auth_config st with
  | .error e => .error e
  | .ok _ =>
    let seed_norm := normalize_seed (pyOrEmptyStr req.seed_phrase)
    if (pySplit seed_norm.data).length < 6 then .error ⟨400, "Seed phrase is too short"⟩
    else
      match seed_key st seed_norm with
      | none => .error ⟨500, "Internal Server Error"⟩
      | some skey =>
        match dbFirstBySeedKey db skey with
        | none => .error ⟨401, "Invalid seed phrase"⟩
        | some u =>
          if !verify_seed seed_norm u.seed_hash then .error ⟨401, "Invalid seed phrase"⟩
          else
            match issue_jwt st now u.id u.email with
            | none => .error ⟨500, "Internal Server Error"⟩
            | some tok => .ok ⟨tok⟩

/-! ### `backend/app/routers/google_drive.py`: the OAuth state codec -/

/-- Model of `_sign_state`: `base64url(hmac.new((auth_state_secret or "").encode(),
payload.encode(), sha256).digest()).rstrip("=")`.  Modelled as an ideal MAC
whose tag is a concrete injective encoding of `(secret, payload)` — a
length-prefix followed by the transport encoding of both strings; like the
real base64url tag it never contains the `|` delimiter. -/
def _sign_state (st : Settings) (payload : String) : String :=
  String.mk ('s' :: (natRepr (st.auth_state_secret.getD "").length
    ++ 's' :: b64uEncodeList ((st.auth_state_secret.getD "").data ++ payload.data)))

/-- Model of `_encode_state`: base64url of `ts|return_to|sig` with `ts = str(int(time.time()))`
and `sig = _sign_state(f"{ts}|{return_to}")`. -/
def _encode_state (st : Settings) (now : Nat) (return_to : String) : String :=
  let payloadData := natRepr now ++ '|' :: return_to.data
  let sig := _sign_state st (String.mk payloadData)
  String.mk (b64uEncodeList (payloadData ++ '|' :: sig.data))

/-- Model of `_decode_state`: base64url-decode, `split("|", 2)` into exactly three
parts, constant-time signature comparison, then a 30-minute freshness window
on the embedded timestamp; every failure (including every raised exception)
is `none`, which the endpoint reports as the uniform 400 "Invalid state". -/
def _decode_state (st : Settings) (now : Nat) (state : String) : Option String :=
  match b64uDecodeList state.data with
  | none => none
  | some raw =>
    match splitPipe2 raw with
    | [ts, return_to, sig] =>
      let payload := String.mk (ts ++ '|' :: return_to)
      if _sign_state st payload = String.mk sig then
        match parseInt ts with
        | none => none
        | some t => if (now : Int) - t > 30 * 60 then none else some (String.mk return_to)
      else none
    | _ => none

/-! ### Supporting lemmas for the claim theorems -/

theorem string_mk_data (s : String) : String.mk s.data = s := rfl

theorem pyOrEmptyStr_eq (s : String) : pyOrEmptyStr s = s := by
  unfold pyOrEmptyStr
  split
  · simp [*]
  · rfl

theorem sha256hex_length (s : String) : (sha256hex s).length = 64 := by
  simp [sha256hex, String.length]

theorem bcryptTruncate_of_length_le (s : String) (h : s.length ≤ 72) :
    bcryptTruncate s = s := by
  unfold bcryptTruncate
  rw [List.take_of_length_le h, string_mk_data]

theorem bcryptVerify_hash (salt input : String) :
    bcryptVerify input (bcryptHashWithSalt salt input) = true := by
  simp [bcryptVerify, bcryptHashWithSalt]

theorem verify_password_hash_password (salt password : String) :
    verify_password password (hash_password salt password) = true :=
  bcryptVerify_hash salt (_bcrypt_input password)

theorem verify_seed_hash_seed (salt phrase : String) :
    verify_seed phrase (hash_seed salt phrase) = true :=
  bcryptVerify_hash salt (normalize_seed phrase)

/-- With the config check passed, both secrets resolve. -/
theorem require_config_ok_secrets {st : Settings}
    (h : require_local_auth_config st = .ok ()) :
    _require_auth_secrets st =
      some (st.auth_jwt_secret.getD "", st.auth_seed_secret.getD "") := by
  unfold require_local_auth_config at h
  unfold _require_auth_secrets
  by_cases h1 : pyTruthyOptStr st.auth_jwt_secret
  · by_cases h2 : pyTruthyOptStr st.auth_seed_secret
    · rw [if_neg (by simp [h1]), if_neg (by simp [h2])]
    · rw [if_pos (by simp [h2])] at h
      simp at h
  · rw [if_pos (by simp [h1])] at h
    simp at h

theorem find?_append_of_none {α : Type} {p : α → Bool} {l1 : List α} (l2 : List α)
    (h : l1.find? p = none) : (l1 ++ l2).find? p = l2.find? p := by
  induction l1 with
  | nil => rfl
  | cons x t ih =>
    by_cases hx : p x = true
    · rw [List.find?_cons_of_pos _ hx] at h
      simp at h
    · rw [List.find?_cons_of_neg _ hx] at h
      rw [List.cons_append, List.find?_cons_of_neg _ hx]
      exact ih h

/-! ### Normalization lemmas (`auth.normalize_seed`) -/

theorem normalize_seed_data (x : String) :
    (normalize_seed x).data = joinSpace (pySplit (pyLower x.data)) := by
  unfold normalize_seed
  show joinSpace ((pySplit (pyLower (pyStrip x.data))).filter (fun w => !w.isEmpty)) = _
  rw [pySplit_pyLower_pyStrip]
  congr 1
  rw [List.filter_eq_self]
  intro w hw
  have := (pySplit_sound _ w hw).1
  simp [List.isEmpty_iff, this]

theorem joinSpace_pySplit_pyLower_chars (l : List Char) :
    ∀ c ∈ joinSpace (pySplit (pyLower l)), Char.toLower c = c := by
  intro c hc
  rcases mem_joinSpace _ c hc with ⟨w, hw, hcw⟩ | rfl
  · have hcl : c ∈ pyLower l := pySplit_mem _ w hw c hcw
    obtain ⟨d, _, rfl⟩ := List.mem_map.mp hcl
    exact toLower_idem d
  · rfl

theorem normalize_seed_insensitive (x y : String)
    (h : pySplit (pyLower x.data) = pySplit (pyLower y.data)) :
    normalize_seed x = normalize_seed y := by
  have hd : (normalize_seed x).data = (normalize_seed y).data := by
    rw [normalize_seed_data, normalize_seed_data, h]
  calc normalize_seed x = String.mk (normalize_seed x).data := (string_mk_data _).symm
    _ = String.mk (normalize_seed y).data := by rw [hd]
    _ = normalize_seed y := string_mk_data _

theorem normalize_seed_idem (x : String) :
    normalize_seed (normalize_seed x) = normalize_seed x := by
  have hd : (normalize_seed (normalize_seed x)).data = (normalize_seed x).data := by
    rw [normalize_seed_data, normalize_seed_data x]
    have hfix : pyLower (joinSpace (pySplit (pyLower x.data)))
        = joinSpace (pySplit (pyLower x.data)) := by
      show List.map Char.toLower _ = _
      rw [List.map_congr_left (fun c hc => joinSpace_pySplit_pyLower_chars x.data c hc),
        List.map_id']
    rw [hfix, pySplit_joinSpace _ (pySplit_sound _)]
  calc normalize_seed (normalize_seed x)
      = String.mk (normalize_seed (normalize_seed x)).data := (string_mk_data _).symm
    _ = String.mk (normalize_seed x).data := by rw [hd]
    _ = normalize_seed x := string_mk_data _

theorem string_data_mk (l : List Char) : (String.mk l).data = l := rfl

/-- Full evaluation of `_decode_state` on a state produced by `_encode_state`,
for any `return_to` free of the `|` delimiter. -/
theorem decode_encode_state (st : Settings) (nowE nowD : Nat) (r : String)
    (hr : ∀ c ∈ r.data, c ≠ '|') :
    _decode_state st nowD (_encode_state st nowE r) =
      if (nowD : Int) - (nowE : Int) > 30 * 60 then none else some r := by
  simp only [_encode_state, _decode_state, string_data_mk]
  rw [b64u_roundtrip]
  dsimp only
  rw [List.append_assoc, List.cons_append,
    splitPipe2_three _ (fun c hc => natRepr_no_pipe nowE c hc) hr]
  dsimp only
  rw [string_mk_data, if_pos rfl, parseInt_natRepr]

/-- Full evaluation of `_decode_state` on a well-shaped raw triple whose
signature field differs from the correct tag. -/
theorem decode_state_bad_sig (st : Settings) (nowD nowE : Nat) (r sig2 : String)
    (hr : ∀ c ∈ r.data, c ≠ '|')
    (hsig : sig2 ≠ _sign_state st (String.mk (natRepr nowE ++ '|' :: r.data))) :
    _decode_state st nowD
      (String.mk (b64uEncodeList ((natRepr nowE ++ '|' :: r.data) ++ '|' :: sig2.data))) =
      none := by
  simp only [_decode_state, string_data_mk]
  rw [b64u_roundtrip]
  dsimp only
  rw [List.append_assoc, List.cons_append,
    splitPipe2_three _ (fun c hc => natRepr_no_pipe nowE c hc) hr]
  dsimp only
  rw [string_mk_data, if_neg (fun hh => hsig hh.symm)]

/-- Decoding rejects any transport-layer-valid string whose raw form
has no delimiter at all. -/
theorem decode_state_no_delim (st : Settings) (nowD : Nat) (raw : List Char)
    (hraw : ∀ c ∈ raw, c ≠ '|') :
    _decode_state st nowD (String.mk (b64uEncodeList raw)) = none := by
  simp only [_decode_state, string_data_mk]
  rw [b64u_roundtrip]
  dsimp only
  rw [splitPipe2, splitOnce_none hraw]

/-! ### Evaluation of `decode_jwt` on issued payloads -/

theorem jwtGet_issued_sub (uid email : String) (ia ex : Int) :
    jwtGet (issuedPayload uid email ia ex) "sub" = some (.str uid) := by
  simp [jwtGet, issuedPayload]

theorem jwtGet_issued_email (uid email : String) (ia ex : Int) :
    jwtGet (issuedPayload uid email ia ex) "email" = some (.str email) := by
  simp [jwtGet, issuedPayload]

theorem jwtGet_issued_iat (uid email : String) (ia ex : Int) :
    jwtGet (issuedPayload uid email ia ex) "iat" = some (.int ia) := by
  simp [jwtGet, issuedPayload]

theorem jwtGet_issued_exp (uid email : String) (ia ex : Int) :
    jwtGet (issuedPayload uid email ia ex) "exp" = some (.int ex) := by
  simp [jwtGet, issuedPayload]

theorem jwtGet_issued_nbf (uid email : String) (ia ex : Int) :
    jwtGet (issuedPayload uid email ia ex) "nbf" = none := by
  simp [jwtGet, issuedPayload]

theorem jwtClaimsValid_issued (uid email : String) (ia ex nowD : Int) :
    jwtClaimsValid (issuedPayload uid email ia ex) nowD = decide (nowD < ex) := by
  rw [jwtClaimsValid, jwtGet_issued_iat, jwtGet_issued_nbf, jwtGet_issued_exp]
  simp [pyIntOfJson]

/-- Evaluation of `decode_jwt` on a correctly signed issued payload. -/
theorem decode_jwt_issued (st : Settings) (j s : String) (uid email : String)
    (ia ex nowD : Int) (hsec : _require_auth_secrets st = some (j, s))
    (huid : uid ≠ "") (hemail : email ≠ "") :
    decode_jwt st nowD
        (.token (issuedPayload uid email ia ex) ⟨j, issuedPayload uid email ia ex⟩) =
      if nowD < ex then some ⟨uid, email⟩ else none := by
  rw [decode_jwt]
  rw [hsec]
  dsimp only
  rw [if_pos rfl, jwtClaimsValid_issued]
  by_cases hexp : nowD < ex
  · rw [if_pos hexp, if_pos (by simpa using hexp)]
    rw [jwtGetStrOrEmpty, jwtGet_issued_sub, jwtGetStrOrEmpty, jwtGet_issued_email]
    simp [pyTruthyJson, pyStrJson, huid, hemail]
  · rw [if_neg hexp]
    simp [hexp]

/-! ### Concrete fixtures used by witnesses and counterexamples -/

/-- A fully configured `Settings` value. -/
def stConf : Settings := ⟨some "j", 1209600, some "s", some "t"⟩

/-- Model of `Settings` with the session-signing secret unset. -/
def stNoJwt : Settings := ⟨none, 1209600, some "s", some "t"⟩

/-- The `HTTPException` raised by `require_local_auth_config`. -/
def configErr : HErr :=
  ⟨400,
    "Local auth is not configured. Set AUTH_JWT_SECRET and AUTH_SEED_SECRET in backend/.env and restart."⟩

/-- Rewriting form of `normalize_seed` with the redundant strip and filter
discharged. -/
theorem normalize_seed_eq (x : String) :
    normalize_seed x = String.mk (joinSpace (pySplit (pyLower x.data))) := by
  rw [← normalize_seed_data, string_mk_data]

/-! ### C5 — fail-closed configuration -/

/-- C5: if the session-signing secret or the seed HMAC secret is absent
(or empty), every exposed auth operation — Register, LoginWithPassword,
LoginWithSeed and ValidateSession (`get_current_user`) — fails immediately
with the 400 configuration error, before any other request work. -/
theorem fail_closed_missing_secret (st : Settings) (db : List User) (now : Int)
    (uid phrase pwSalt seedSalt : String) (reqR : RegisterRequest)
    (reqE : LoginEmailRequest) (reqS : LoginSeedRequest) (creds : Option JwtWire)
    (h : pyTruthyOptStr st.auth_jwt_secret = false ∨
      pyTruthyOptStr st.auth_seed_secret = false) :
    register st db now uid phrase pwSalt seedSalt reqR = .error configErr ∧
    login_email st db now reqE = .error configErr ∧
    login_seed st db now reqS = .error configErr ∧
    get_current_user st db now creds = .error configErr := by
  have hc : require_local_auth_config st = .error configErr := by
    rw [require_local_auth_config, if_pos (by rcases h with h | h <;> simp [h])]
    rfl
  refine ⟨?_, ?_, ?_, ?_⟩
  · rw [register, hc]
  · rw [login_email, hc]
  · rw [login_seed, hc]
  · rw [get_current_user.eq_def, hc]

theorem fail_closed_missing_secret_witness :
    pyTruthyOptStr stNoJwt.auth_jwt_secret = false ∧
    register stNoJwt [] 0 "u" "p" "sa" "sb" ⟨"a@b.c", "secret1"⟩ = .error configErr := by
  refine ⟨by decide, ?_⟩
  exact (fail_closed_missing_secret stNoJwt [] 0 "u" "p" "sa" "sb" ⟨"a@b.c", "secret1"⟩
    ⟨"a@b.c", "secret1"⟩ ⟨"p"⟩ none (Or.inl (by decide))).1

/-! ### C6 — total decoder -/

/-- C6 (amended): the session-token decoder is total — on every wire input
it either returns the absent outcome or a complete identity with nonempty
`user_id` and `email`; every input the `jwt` library rejects is absent.
However, the decoder does not reject non-string claim values: truthy
non-string claims are string-coerced into the identity (see the
counterexample), so "well-typed claims" is not checked. -/
theorem decode_jwt_total (st : Settings) (now : Int) :
    (∀ raw, decode_jwt st now (.malformed raw) = none) ∧
    (∀ w : JwtWire, decode_jwt st now w = none ∨
      ∃ uid email, uid ≠ "" ∧ email ≠ "" ∧ decode_jwt st now w = some ⟨uid, email⟩) := by
  constructor
  · intro raw
    cases hs : _require_auth_secrets st with
    | none => rw [decode_jwt, hs]
    | some pr => rw [decode_jwt, hs]
  · intro w
    cases hs : _require_auth_secrets st with
    | none => left; rw [decode_jwt, hs]
    | some pr =>
      obtain ⟨j, s⟩ := pr
      cases w with
      | malformed raw => left; rw [decode_jwt, hs]
      | token claims sig =>
        rw [decode_jwt, hs]
        dsimp only
        by_cases h1 : sig = (⟨j, claims⟩ : JwtSig)
        · rw [if_pos h1]
          by_cases h2 : jwtClaimsValid claims now = true
          · rw [if_pos h2]
            by_cases h3 : jwtGetStrOrEmpty claims "sub" = "" ∨
                jwtGetStrOrEmpty claims "email" = ""
            · left; rw [if_pos h3]
            · right
              push_neg at h3
              exact ⟨jwtGetStrOrEmpty claims "sub", jwtGetStrOrEmpty claims "email",
                h3.1, h3.2, by rw [if_neg (by push_neg; exact h3)]⟩
          · left
            rw [if_neg h2]
        · left; rw [if_neg h1]

/-- C6 counterexample: a correctly signed, unexpired token whose `email`
claim is the *integer* `123` is not rejected; `str()` coercion turns it into
the identity `("u", "123")` — inferred, not stored, string claim data. -/
theorem decode_jwt_coercion_counterexample :
    jwtGet [("sub", JsonVal.str "u"), ("email", JsonVal.int 123), ("exp", JsonVal.int 99)]
        "email" = some (.int 123) ∧
    decode_jwt stConf 0
        (.token [("sub", JsonVal.str "u"), ("email", JsonVal.int 123), ("exp", JsonVal.int 99)]
          ⟨"j", [("sub", JsonVal.str "u"), ("email", JsonVal.int 123), ("exp", JsonVal.int 99)]⟩) =
      some ⟨"u", "123"⟩ :=
  ⟨by decide, by decide⟩

/-! ### C7 — seed lookup key -/

/-- C7: with the secrets configured, `seed_key(p)` is exactly the
(hex-encoded) HMAC-SHA256 of `normalize(p)` keyed with the seed secret; it is
deterministic — phrases with equal normalization give equal keys — and for the
same phrase a different seed secret gives a different key. -/
theorem seed_key_definition (st st2 : Settings) (p p2 : String) (j s j2 s2 : String)
    (hsec : _require_auth_secrets st = some (j, s)) :
    seed_key st p = some ⟨s, normalize_seed p⟩ ∧
    (normalize_seed p = normalize_seed p2 → seed_key st p = seed_key st p2) ∧
    (_require_auth_secrets st2 = some (j2, s2) → s ≠ s2 →
      seed_key st p ≠ seed_key st2 p) := by
  refine ⟨?_, ?_, ?_⟩
  · rw [seed_key, hsec]
  · intro hn
    rw [seed_key, hsec, seed_key, hsec, hn]
  · intro h2 hs
    rw [seed_key, hsec, seed_key, h2]
    simp [hs]

theorem seed_key_definition_witness :
    _require_auth_secrets stConf = some ("j", "s") ∧
    seed_key stConf "A  b" = some ⟨"s", normalize_seed "A  b"⟩ := by
  refine ⟨by decide, ?_⟩
  exact (seed_key_definition stConf stConf "A  b" "A  b" "j" "s" "j" "s" (by decide)).1

/-! ### C8 — password pre-hash pipeline -/

/-- C8: `hash_password` applies the slow (bcrypt) hash to the fixed-size
SHA-256 digest of the password, never to the password itself, and
`verify_password` digests identically before slow verification; the digest is
always 64 characters, strictly under bcrypt's 72-byte ceiling, so the bound
input is the digest untruncated, and `verify_password(pw, hash_password(pw))`
holds for every password of any length. -/
theorem password_prehash_pipeline (salt password : String) :
    hash_password salt password = bcryptHashWithSalt salt (_bcrypt_input password) ∧
    verify_password password (hash_password salt password) =
      bcryptVerify (_bcrypt_input password) (hash_password salt password) ∧
    (_bcrypt_input password).length = 64 ∧
    (hash_password salt password).key = _bcrypt_input password ∧
    verify_password password (hash_password salt password) = true := by
  refine ⟨rfl, rfl, sha256hex_length password, ?_, verify_password_hash_password salt password⟩
  show (bcryptHashWithSalt salt (_bcrypt_input password)).key = _
  unfold bcryptHashWithSalt
  exact bcryptTruncate_of_length_le _ (by rw [show (_bcrypt_input password).length = 64 from sha256hex_length password]; omega)

/-! ### C1 — session token round trip -/

/-- C1 (amended): for every *nonempty* `uid` and *nonempty* `email`,
decoding the token produced by `issue(uid, email)` with the issuing secret
returns exactly `(uid, email)` while the current time is before the token's
`expires_at = iat + ttl`; decoding returns the absent outcome once expired,
for any altered signature, and under any different signing secret. -/
theorem session_token_roundtrip (st st2 : Settings) (nowI nowD : Int)
    (uid email : String) (w : JwtWire) (j s j2 s2 : String)
    (hsec : _require_auth_secrets st = some (j, s))
    (hsec2 : _require_auth_secrets st2 = some (j2, s2))
    (hW : issue_jwt st nowI uid email = some w)
    (huid : uid ≠ "") (hemail : email ≠ "") :
    (nowD < nowI + st.auth_jwt_ttl_seconds → decode_jwt st nowD w = some ⟨uid, email⟩) ∧
    (nowI + st.auth_jwt_ttl_seconds ≤ nowD → decode_jwt st nowD w = none) ∧
    (∀ claims sig, w = .token claims sig → ∀ sig2, sig2 ≠ sig →
      decode_jwt st nowD (.token claims sig2) = none) ∧
    (j2 ≠ j → decode_jwt st2 nowD w = none) := by
  rw [issue_jwt, hsec] at hW
  dsimp only at hW
  have hite : (if st.auth_jwt_ttl_seconds = 0 then (0 : Int) else st.auth_jwt_ttl_seconds) =
      st.auth_jwt_ttl_seconds := by
    by_cases h0 : st.auth_jwt_ttl_seconds = 0 <;> simp [h0]
  rw [hite] at hW
  obtain rfl : w = .token (issuedPayload uid email nowI (nowI + st.auth_jwt_ttl_seconds))
      ⟨j, issuedPayload uid email nowI (nowI + st.auth_jwt_ttl_seconds)⟩ :=
    (Option.some.inj hW).symm
  refine ⟨?_, ?_, ?_, ?_⟩
  · intro hfresh
    rw [decode_jwt_issued st j s uid email nowI _ nowD hsec huid hemail, if_pos hfresh]
  · intro hexp
    rw [decode_jwt_issued st j s uid email nowI _ nowD hsec huid hemail, if_neg (by omega)]
  · intro claims sig hwe sig2 hne
    obtain ⟨rfl, rfl⟩ : issuedPayload uid email nowI (nowI + st.auth_jwt_ttl_seconds) = claims ∧
        (⟨j, issuedPayload uid email nowI (nowI + st.auth_jwt_ttl_seconds)⟩ : JwtSig) = sig := by
      cases hwe; exact ⟨rfl, rfl⟩
    rw [decode_jwt, hsec]
    dsimp only
    rw [if_neg (fun hh => hne hh)]
  · intro hj
    rw [decode_jwt, hsec2]
    dsimp only
    rw [if_neg (by intro hh; exact hj (congrArg JwtSig.secret hh).symm)]

theorem session_token_roundtrip_witness :
    _require_auth_secrets stConf = some ("j", "s") ∧
    issue_jwt stConf 0 "u1" "a@b.c" =
      some (.token (issuedPayload "u1" "a@b.c" 0 1209600)
        ⟨"j", issuedPayload "u1" "a@b.c" 0 1209600⟩) ∧
    decode_jwt stConf 1
        (.token (issuedPayload "u1" "a@b.c" 0 1209600)
          ⟨"j", issuedPayload "u1" "a@b.c" 0 1209600⟩) = some ⟨"u1", "a@b.c"⟩ := by
  refine ⟨by decide, by decide, ?_⟩
  exact (session_token_roundtrip stConf stConf 0 1 "u1" "a@b.c"
    (.token (issuedPayload "u1" "a@b.c" 0 1209600) ⟨"j", issuedPayload "u1" "a@b.c" 0 1209600⟩)
    "j" "s" "j" "s" (by decide) (by decide) (by decide) (by decide) (by decide)).1 (by decide)

/-- C1 counterexample: the round trip fails as stated for `uid = ""`: the
token issues fine, the time is well before `expires_at`, yet decoding returns
the absent outcome (the decoder treats a falsy `sub` as missing), not
`("", email)`. -/
theorem session_token_empty_uid_counterexample :
    issue_jwt stConf 0 "" "a@b.c" =
      some (.token (issuedPayload "" "a@b.c" 0 1209600)
        ⟨"j", issuedPayload "" "a@b.c" 0 1209600⟩) ∧
    (1 : Int) < 0 + stConf.auth_jwt_ttl_seconds ∧
    decode_jwt stConf 1
        (.token (issuedPayload "" "a@b.c" 0 1209600)
          ⟨"j", issuedPayload "" "a@b.c" 0 1209600⟩) = none :=
  ⟨by decide, by decide, by decide⟩

/-! ### C2 — OAuth state round trip -/

/-- C2 (amended): for every `return_to` that does not contain the `|`
delimiter, decoding the encoded state returns `return_to` exactly when at most
30 minutes have elapsed between the embedded timestamp and the decoding time,
and fails once more than 30 minutes have elapsed; decoding fails uniformly
(`none`, reported as the single `InvalidState` error) when the signature field
is anything other than the correct tag, when the transport encoding is
malformed, and when the decoded raw string does not split into three
`|`-separated parts.  (For a `return_to` containing `|` the round trip itself
fails — see the counterexample.) -/
theorem oauth_state_roundtrip (st : Settings) (nowE nowD : Nat) (r : String)
    (hr : ∀ c ∈ r.data, c ≠ '|') :
    ((nowD : Int) - (nowE : Int) ≤ 30 * 60 →
      _decode_state st nowD (_encode_state st nowE r) = some r) ∧
    ((nowD : Int) - (nowE : Int) > 30 * 60 →
      _decode_state st nowD (_encode_state st nowE r) = none) ∧
    (∀ sig2 : String, sig2 ≠ _sign_state st (String.mk (natRepr nowE ++ '|' :: r.data)) →
      _decode_state st nowD
        (String.mk (b64uEncodeList ((natRepr nowE ++ '|' :: r.data) ++ '|' :: sig2.data))) =
        none) ∧
    (∀ sstr : String, b64uDecodeList sstr.data = none → _decode_state st nowD sstr = none) ∧
    (∀ raw : List Char, (∀ c ∈ raw, c ≠ '|') →
      _decode_state st nowD (String.mk (b64uEncodeList raw)) = none) := by
  refine ⟨?_, ?_, ?_, ?_, ?_⟩
  · intro hfresh
    rw [decode_encode_state st nowE nowD r hr, if_neg (by omega)]
  · intro hstale
    rw [decode_encode_state st nowE nowD r hr, if_pos (by omega)]
  · intro sig2 hsig
    exact decode_state_bad_sig st nowD nowE r sig2 hr hsig
  · intro sstr hbad
    rw [_decode_state, hbad]
  · intro raw hraw
    exact decode_state_no_delim st nowD raw hraw

theorem oauth_state_roundtrip_witness :
    (∀ c ∈ ("http://cb" : String).data, c ≠ '|') ∧
    _decode_state stConf 1900 (_encode_state stConf 100 "http://cb") = some "http://cb" ∧
    _decode_state stConf 1901 (_encode_state stConf 100 "http://cb") = none := by
  refine ⟨by decide, ?_, ?_⟩
  · exact (oauth_state_roundtrip stConf 100 1900 "http://cb" (by decide)).1 (by decide)
  · exact (oauth_state_roundtrip stConf 100 1901 "http://cb" (by decide)).2.1 (by decide)

/-- C2 counterexample: the round trip does not hold for *every* URL
string: with `return_to = "http://a|b"` (which contains the `|` delimiter) the
immediately decoded state is rejected rather than returned. -/
theorem oauth_state_pipe_counterexample :
    _decode_state stConf 100 (_encode_state stConf 100 "http://a|b") = none ∧
    ((100 : Int) - (100 : Int) ≤ 30 * 60) :=
  ⟨by decide, by decide⟩

/-! ### C3 — AuthGate resolution -/

theorem decode_jwt_malformed (st : Settings) (now : Int) (raw : String) :
    decode_jwt st now (.malformed raw) = none := by
  cases hs : _require_auth_secrets st with
  | none => rw [decode_jwt, hs]
  | some pr => rw [decode_jwt, hs]

theorem jwtWireFalsy_of_decode_some {st : Settings} {now : Int} {w : JwtWire} {td : TokenData}
    (h : decode_jwt st now w = some td) : jwtWireFalsy w = false := by
  cases w with
  | malformed raw => rw [decode_jwt_malformed] at h; cases h
  | token claims sig => rfl

/-- C3: with auth configured, the required gate rejects with 401 when the
bearer credential is absent, when it fails to decode, and when the decoded
subject resolves to no stored user; otherwise it attaches exactly the resolved
user.  The optional gate runs the same resolution but yields a null identity
instead: absence gives `none`, every required-gate success gives the same
user, and every required-gate rejection gives `none`. -/
theorem auth_gate_resolution (st : Settings) (db : List User) (now : Int)
    (hcfg : require_local_auth_config st = .ok ()) :
    (get_current_user st db now none = .error ⟨401, "Missing bearer token"⟩) ∧
    (∀ w, jwtWireFalsy w = false → decode_jwt st now w = none →
      get_current_user st db now (some w) = .error ⟨401, "Invalid token"⟩) ∧
    (∀ w td, decode_jwt st now w = some td → dbGetUserById db td.user_id = none →
      get_current_user st db now (some w) = .error ⟨401, "User not found"⟩) ∧
    (∀ w td u, decode_jwt st now w = some td → dbGetUserById db td.user_id = some u →
      get_current_user st db now (some w) = .ok u) ∧
    (get_optional_user st db now none = none) ∧
    (∀ w u, get_current_user st db now (some w) = .ok u →
      get_optional_user st db now (some w) = some u) ∧
    (∀ w e, get_current_user st db now (some w) = .error e →
      get_optional_user st db now (some w) = none) := by
  refine ⟨?_, ?_, ?_, ?_, rfl, ?_, ?_⟩
  · rw [get_current_user.eq_def, hcfg]
  · intro w hf hd
    rw [get_current_user.eq_def, hcfg]
    dsimp only
    rw [if_neg (by simp [hf]), hd]
  · intro w td hd hu
    rw [get_current_user.eq_def, hcfg]
    dsimp only
    rw [if_neg (by simp [jwtWireFalsy_of_decode_some hd]), hd]
    dsimp only
    rw [hu]
  · intro w td u hd hu
    rw [get_current_user.eq_def, hcfg]
    dsimp only
    rw [if_neg (by simp [jwtWireFalsy_of_decode_some hd]), hd]
    dsimp only
    rw [hu]
  · intro w u h
    rw [get_current_user.eq_def, hcfg] at h
    dsimp only at h
    by_cases hf : jwtWireFalsy w = true
    · rw [if_pos hf] at h; cases h
    · rw [if_neg hf] at h
      cases hd : decode_jwt st now w with
      | none => rw [hd] at h; dsimp only at h; cases h
      | some td =>
        rw [hd] at h
        dsimp only at h
        cases hu : dbGetUserById db td.user_id with
        | none => rw [hu] at h; dsimp only at h; cases h
        | some v =>
          rw [hu] at h
          dsimp only at h
          rw [get_optional_user.eq_def]
          dsimp only
          rw [if_neg hf, hd]
          dsimp only
          rw [hu]
          exact congrArg some (Except.ok.inj h)
  · intro w e h
    rw [get_current_user.eq_def, hcfg] at h
    dsimp only at h
    by_cases hf : jwtWireFalsy w = true
    · rw [get_optional_user.eq_def]
      dsimp only
      rw [if_pos hf]
    · rw [if_neg hf] at h
      cases hd : decode_jwt st now w with
      | none =>
        rw [get_optional_user.eq_def]
        dsimp only
        rw [if_neg hf, hd]
      | some td =>
        rw [hd] at h
        dsimp only at h
        cases hu : dbGetUserById db td.user_id with
        | none =>
          rw [get_optional_user.eq_def]
          dsimp only
          rw [if_neg hf, hd]
          dsimp only
          rw [hu]
        | some v => rw [hu] at h; dsimp only at h; cases h

theorem auth_gate_resolution_witness :
    require_local_auth_config stConf = .ok () ∧
    get_current_user stConf [] 0 none = .error ⟨401, "Missing bearer token"⟩ :=
  ⟨by rfl, (auth_gate_resolution stConf [] 0 (by rfl)).1⟩

/-! ### C4 — authentication error messages -/

theorem require_config_error {st : Settings} {e0 : HErr}
    (h : require_local_auth_config st = .error e0) : e0 = configErr := by
  rw [require_local_auth_config] at h
  by_cases hc : (!pyTruthyOptStr st.auth_jwt_secret || !pyTruthyOptStr st.auth_seed_secret) = true
  · rw [if_pos hc] at h
    exact (Except.error.inj h).symm
  · rw [if_neg hc] at h
    cases h

/-- C4 (amended): the authentication-failure message is uniform *within*
each login operation — password login reports `Invalid credentials` for both
unknown email and wrong password, seed login reports `Invalid seed phrase` for
both unknown seed key and failed seed verification — but the three entry
points do not share one message: the bearer-token gate reports a distinct
message per failed check (`Missing bearer token`, `Invalid token`,
`User not found`). -/
theorem auth_error_messages_per_operation (st : Settings) (db : List User) (now : Int) :
    (∀ req e, login_email st db now req = .error e → e.status = 401 →
      e.detail = "Invalid credentials") ∧
    (∀ req e, login_seed st db now req = .error e → e.status = 401 →
      e.detail = "Invalid seed phrase") ∧
    (∀ creds e, get_current_user st db now creds = .error e → e.status = 401 →
      e.detail = "Missing bearer token" ∨ e.detail = "Invalid token" ∨
        e.detail = "User not found") := by
  refine ⟨?_, ?_, ?_⟩
  · intro req e h hs
    rw [login_email] at h
    cases hcfg : require_local_auth_config st with
    | error e0 =>
      rw [hcfg] at h
      dsimp only at h
      obtain rfl := Except.error.inj h
      rw [require_config_error hcfg] at hs
      simp [configErr] at hs
    | ok u0 =>
      cases u0
      rw [hcfg] at h
      dsimp only at h
      cases hf : dbFirstByEmail db (pyEmailNorm req.email) with
      | none =>
        rw [hf] at h
        dsimp only at h
        obtain rfl := Except.error.inj h
        rfl
      | some u =>
        rw [hf] at h
        dsimp only at h
        by_cases hv : (!verify_password (pyOrEmptyStr req.password) u.password_hash) = true
        · rw [if_pos hv] at h
          obtain rfl := Except.error.inj h
          rfl
        · rw [if_neg hv] at h
          cases hiss : issue_jwt st now u.id u.email with
          | none =>
            rw [hiss] at h
            dsimp only at h
            obtain rfl := Except.error.inj h
            simp at hs
          | some tok =>
            rw [hiss] at h
            dsimp only at h
            cases h
  · intro req e h hs
    rw [login_seed] at h
    cases hcfg : require_local_auth_config st with
    | error e0 =>
      rw [hcfg] at h
      dsimp only at h
      obtain rfl := Except.error.inj h
      rw [require_config_error hcfg] at hs
      simp [configErr] at hs
    | ok u0 =>
      cases u0
      rw [hcfg] at h
      dsimp only at h
      by_cases hlen : (pySplit (normalize_seed (pyOrEmptyStr req.seed_phrase)).data).length < 6
      · rw [if_pos hlen] at h
        obtain rfl := Except.error.inj h
        simp at hs
      · rw [if_neg hlen] at h
        cases hsk : seed_key st (normalize_seed (pyOrEmptyStr req.seed_phrase)) with
        | none =>
          rw [hsk] at h
          dsimp only at h
          obtain rfl := Except.error.inj h
          simp at hs
        | some skey =>
          rw [hsk] at h
          dsimp only at h
          cases hfk : dbFirstBySeedKey db skey with
          | none =>
            rw [hfk] at h
            dsimp only at h
            obtain rfl := Except.error.inj h
            rfl
          | some u =>
            rw [hfk] at h
            dsimp only at h
            by_cases hv : (!verify_seed (normalize_seed (pyOrEmptyStr req.seed_phrase))
                u.seed_hash) = true
            · rw [if_pos hv] at h
              obtain rfl := Except.error.inj h
              rfl
            · rw [if_neg hv] at h
              cases hiss : issue_jwt st now u.id u.email with
              | none =>
                rw [hiss] at h
                dsimp only at h
                obtain rfl := Except.error.inj h
                simp at hs
              | some tok =>
                rw [hiss] at h
                dsimp only at h
                cases h
  · intro creds e h hs
    rw [get_current_user.eq_def] at h
    cases hcfg : require_local_auth_config st with
    | error e0 =>
      rw [hcfg] at h
      dsimp only at h
      obtain rfl := Except.error.inj h
      rw [require_config_error hcfg] at hs
      simp [configErr] at hs
    | ok u0 =>
      cases u0
      rw [hcfg] at h
      dsimp only at h
      cases creds with
      | none =>
        dsimp only at h
        obtain rfl := Except.error.inj h
        left; rfl
      | some w =>
        dsimp only at h
        by_cases hf : jwtWireFalsy w = true
        · rw [if_pos hf] at h
          obtain rfl := Except.error.inj h
          left; rfl
        · rw [if_neg hf] at h
          cases hd : decode_jwt st now w with
          | none =>
            rw [hd] at h
            dsimp only at h
            obtain rfl := Except.error.inj h
            right; left; rfl
          | some td =>
            rw [hd] at h
            dsimp only at h
            cases hu : dbGetUserById db td.user_id with
            | none =>
              rw [hu] at h
              dsimp only at h
              obtain rfl := Except.error.inj h
              right; right; rfl
            | some v =>
              rw [hu] at h
              dsimp only at h
              cases h

theorem auth_error_messages_per_operation_witness :
    login_email stConf [] 0 ⟨"a@b.c", "pw"⟩ = .error ⟨401, "Invalid credentials"⟩ ∧
    (⟨401, "Invalid credentials"⟩ : HErr).detail = "Invalid credentials" :=
  ⟨by rfl,
    (auth_error_messages_per_operation stConf [] 0).1 ⟨"a@b.c", "pw"⟩
      ⟨401, "Invalid credentials"⟩ (by rfl) (by decide)⟩

/-- C4 counterexample: four authentication failures — missing bearer
token, undecodable bearer token, unknown email at password login, unknown seed
at seed login — carry four messages that are not all equal, so there is no
single uniform authentication-error message across the subsystem. -/
theorem auth_error_uniform_counterexample :
    get_current_user stConf [] 0 none = .error ⟨401, "Missing bearer token"⟩ ∧
    get_current_user stConf [] 0 (some (.malformed "x")) = .error ⟨401, "Invalid token"⟩ ∧
    login_email stConf [] 0 ⟨"a@b.c", "pw"⟩ = .error ⟨401, "Invalid credentials"⟩ ∧
    login_seed stConf [] 0 ⟨"a b c d e f"⟩ = .error ⟨401, "Invalid seed phrase"⟩ ∧
    ("Missing bearer token" : String) ≠ "Invalid token" ∧
    ("Invalid credentials" : String) ≠ "Invalid seed phrase" := by
  refine ⟨by rfl, by rfl, by rfl, ?_, by decide, by decide⟩
  have hsplit : pySplit ("a b c d e f" : String).data =
      [['a'], ['b'], ['c'], ['d'], ['e'], ['f']] := by
    simp [pySplit]
  have hn : normalize_seed "a b c d e f" = "a b c d e f" := by
    rw [normalize_seed_eq,
      show pyLower ("a b c d e f" : String).data = ("a b c d e f" : String).data from by decide,
      hsplit]
    rfl
  rw [login_seed, show require_local_auth_config stConf = .ok () from rfl]
  dsimp only
  rw [pyOrEmptyStr_eq, hn, hsplit]
  rw [if_neg (by norm_num)]
  rw [show seed_key stConf "a b c d e f" =
    some ⟨"s", normalize_seed "a b c d e f"⟩ from rfl]
  dsimp only
  rfl

/-! ### C9 — idempotent, case/whitespace-insensitive normalization -/

/-- C9: `normalize_seed` is idempotent; any two strings whose
whitespace-delimited tokens coincide after lowercasing (i.e. strings differing
only in letter case, leading/trailing whitespace, or internal whitespace runs)
normalize to the same result; and the result is exactly the single-space join
of the lowercased tokens, every character of which is a lowercasing fixpoint. -/
theorem normalize_seed_properties :
    (∀ x : String, normalize_seed (normalize_seed x) = normalize_seed x) ∧
    (∀ x y : String, pySplit (pyLower x.data) = pySplit (pyLower y.data) →
      normalize_seed x = normalize_seed y) ∧
    (∀ x : String, (normalize_seed x).data = joinSpace (pySplit (pyLower x.data)) ∧
      ∀ c ∈ (normalize_seed x).data, Char.toLower c = c) := by
  refine ⟨normalize_seed_idem, normalize_seed_insensitive, ?_⟩
  intro x
  refine ⟨normalize_seed_data x, ?_⟩
  intro c hc
  rw [normalize_seed_data x] at hc
  exact joinSpace_pySplit_pyLower_chars x.data c hc

theorem normalize_seed_properties_witness :
    pySplit (pyLower ("  Apple   Bench " : String).data) =
      pySplit (pyLower ("apple bench" : String).data) ∧
    normalize_seed "  Apple   Bench " = normalize_seed "apple bench" := by
  have h : pySplit (pyLower ("  Apple   Bench " : String).data) =
      pySplit (pyLower ("apple bench" : String).data) := by
    rw [show pyLower ("  Apple   Bench " : String).data =
        ("  apple   bench " : String).data from by decide,
      show pyLower ("apple bench" : String).data = ("apple bench" : String).data from by decide]
    simp [pySplit]
  exact ⟨h, normalize_seed_properties.2.1 _ _ h⟩

/-! ### C10 — email normalized identically at registration and login -/

/-- C10: a successful registration appends exactly one user row whose
stored email is the trimmed-lowercased form of the submitted email, and
password login then succeeds against that row with *any* email variant whose
trimmed-lowercased form is the same (both handlers apply the identical
`(email or "").strip().lower()` normalization before lookup). -/
theorem register_normalizes_email_for_login
    (st : Settings) (db : List User) (now : Int)
    (uid phrase pwSalt seedSalt : String) (req : RegisterRequest)
    (res : RegisterResponse) (db2 : List User) (e2 : String)
    (hreg : register st db now uid phrase pwSalt seedSalt req = .ok (res, db2))
    (he : pyEmailNorm e2 = pyEmailNorm req.email) :
    ∃ u : User, db2 = db ++ [u] ∧ u.email = pyEmailNorm req.email ∧
      dbFirstByEmail db2 (pyEmailNorm e2) = some u ∧
      ∃ t : TokenResponse, login_email st db2 now ⟨e2, req.password⟩ = .ok t := by
  rw [register] at hreg
  cases hcfg : require_local_auth_config st with
  | error e0 => rw [hcfg] at hreg; dsimp only at hreg; cases hreg
  | ok u0 =>
    cases u0
    rw [hcfg] at hreg
    dsimp only at hreg
    by_cases hem : (pyEmailNorm req.email = "" ∨ ¬(pyEmailNorm req.email).data.contains '@')
    · rw [if_pos hem] at hreg; cases hreg
    · rw [if_neg hem] at hreg
      by_cases hpw : (req.password = "" ∨ req.password.length < 6)
      · rw [if_pos hpw] at hreg; cases hreg
      · rw [if_neg hpw] at hreg
        cases hsk : seed_key st phrase with
        | none => rw [hsk] at hreg; dsimp only at hreg; cases hreg
        | some skey =>
          rw [hsk] at hreg
          dsimp only at hreg
          cases hfe : dbFirstByEmail db (pyEmailNorm req.email) with
          | some u => rw [hfe] at hreg; dsimp only at hreg; cases hreg
          | none =>
            rw [hfe] at hreg
            dsimp only at hreg
            cases hiss : issue_jwt st now uid (pyEmailNorm req.email) with
            | none => rw [hiss] at hreg; dsimp only at hreg; cases hreg
            | some tok =>
              rw [hiss] at hreg
              dsimp only at hreg
              have hp := Except.ok.inj hreg
              have hdb2 : db2 = db ++
                  [⟨uid, now, now, pyEmailNorm req.email, hash_password pwSalt req.password,
                    skey, hash_seed seedSalt phrase⟩] := (congrArg Prod.snd hp).symm
              refine ⟨_, hdb2, rfl, ?_, ?_⟩
              · rw [hdb2, he]
                rw [dbFirstByEmail] at hfe ⊢
                rw [find?_append_of_none _ hfe, List.find?_cons_of_pos _ (by simp)]
              · rw [login_email, hcfg]
                dsimp only
                rw [he, hdb2]
                rw [dbFirstByEmail] at hfe
                rw [show dbFirstByEmail (db ++
                    [⟨uid, now, now, pyEmailNorm req.email, hash_password pwSalt req.password,
                      skey, hash_seed seedSalt phrase⟩]) (pyEmailNorm req.email) =
                    some ⟨uid, now, now, pyEmailNorm req.email,
                      hash_password pwSalt req.password, skey, hash_seed seedSalt phrase⟩ from by
                  rw [dbFirstByEmail, find?_append_of_none _ hfe,
                    List.find?_cons_of_pos _ (by simp)]]
                dsimp only
                rw [pyOrEmptyStr_eq, verify_password_hash_password]
                rw [if_neg (by simp)]
                rw [hiss]
                dsimp only
                exact ⟨⟨tok⟩, rfl⟩

theorem register_normalizes_email_for_login_witness :
    ∃ (res : RegisterResponse) (db2 : List User) (u : User) (t : TokenResponse),
      register stConf [] 0 "u1" "w" "sa" "sb" ⟨" Alice@X.com ", "secret1"⟩ = .ok (res, db2) ∧
      db2 = [] ++ [u] ∧ u.email = pyEmailNorm " Alice@X.com " ∧
      login_email stConf db2 0 ⟨"alice@x.com", "secret1"⟩ = .ok t := by
  have hreg : register stConf [] 0 "u1" "w" "sa" "sb" ⟨" Alice@X.com ", "secret1"⟩ =
      .ok (⟨.token (issuedPayload "u1" "alice@x.com" 0 1209600)
          ⟨"j", issuedPayload "u1" "alice@x.com" 0 1209600⟩, "w"⟩,
        [⟨"u1", 0, 0, "alice@x.com", hash_password "sa" "secret1",
          ⟨"s", normalize_seed "w"⟩, hash_seed "sb" "w"⟩]) := by rfl
  obtain ⟨u, hdb2, hemail, _, t, hlogin⟩ :=
    register_normalizes_email_for_login stConf [] 0 "u1" "w" "sa" "sb"
      ⟨" Alice@X.com ", "secret1"⟩ _ _ "alice@x.com" hreg (by decide)
  exact ⟨_, _, u, t, hreg, hdb2, hemail, hlogin⟩

end DocGen
